import Mathlib

/-!
Shallow embedding of the docubot indexing pipeline (`src/vectorize_repo.py`)
and query service (`src/tools/busqueda.py`).

The tokenizer (`tiktoken` `cl100k_base`) is modelled as an abstract function
`tok : String → Nat` giving the length of `tokenizer.encode(s)`; the SHA-256
hex digest is modelled as an abstract function `sha : String → String`.
Machine floats are modelled as rationals.
-/

namespace Docubot

/-! ### Python string helpers -/

/-- Whitespace characters removed by Python `str.strip()`. -/
def isPyWhitespace (c : Char) : Bool :=
  c = ' ' || c = '\t' || c = '\n' || c = '\r' || c = '\x0b' || c = '\x0c'

/-- Model of Python `s.strip()`: drop whitespace from both ends. -/
def pyStrip (s : String) : String :=
  String.mk (((s.data.dropWhile isPyWhitespace).reverse.dropWhile isPyWhitespace).reverse)

/-- Accumulator loop for `pyLines`: `cur` holds the characters of the
current line in reverse. -/
def splitLinesAux : List Char → List Char → List String
  | [], cur => [String.mk cur.reverse]
  | c :: cs, cur =>
    if c = '\n' then String.mk cur.reverse :: splitLinesAux cs []
    else splitLinesAux cs (c :: cur)

/-- Model of Python `content.split('\n')`: split at every newline, keeping
empty pieces (so `"".split` is `[""]` and a trailing newline yields a final
empty line), exactly as `str.split` with an explicit separator does. -/
def pyLines (s : String) : List String := splitLinesAux s.data []

/-- Model of Python `l[-n:]` (for the guarded use in `_chunk_content`):
`l[-0:]` is the whole list, otherwise the last `n` elements. -/
def pyTakeLast {α : Type} (l : List α) (n : Nat) : List α :=
  if n = 0 then l else l.drop (l.length - n)

/-- Model of Python `s[:n]` on strings. -/
def pySliceTo (s : String) (n : Nat) : String := String.mk (s.data.take n)

/-! ### Embedding client (`_get_embedding`, lines 306-344, and
`_validar_respuesta_embedding`, lines 285-304 of `src/vectorize_repo.py`) -/

/-- Model of the Python values that `json.loads` can produce for the provider
response body.  `bool` is kept separate because Python `bool` is a subclass of
`int`, so `isinstance(True, (int, float))` holds. -/
inductive PyVal where
  | int (n : Int)
  | float (q : Rat)
  | bool (b : Bool)
  | str (s : String)
  | list (l : List PyVal)
  | dict (d : List (String × PyVal))
  | pynone

/-- Model of Python `isinstance(x, (int, float))`; `bool` passes because it
subclasses `int`. -/
def isPyNumber : PyVal → Bool
  | .int _ => true
  | .float _ => true
  | .bool _ => true
  | _ => false

/-- Translation of `_validar_respuesta_embedding` (vectorize_repo.py 285-304):
checks, in source order, that the body is a dict, contains an `embedding`
field, that the field is a list, non-empty, and all elements numeric; raises
`ValueError` (modelled as `.error`) otherwise. -/
def validarRespuestaEmbedding (response_body : PyVal) : Except String (List PyVal) :=
  match response_body with
  | .dict d =>
    match d.lookup "embedding" with
    | none => .error "Respuesta AWS no contiene campo 'embedding'"
    | some (.list embedding) =>
      if embedding.isEmpty then .error "El embedding está vacío"
      else if embedding.all isPyNumber then .ok embedding
      else .error "El embedding contiene valores no numéricos"
    | some _ => .error "El embedding no es una lista válida"
  | _ => .error "Respuesta AWS no es un diccionario válido"

/-- Possible outcomes of the single provider call made inside
`_get_embedding`: the transport layer raising, `json.loads` raising
`JSONDecodeError`, or a decoded response body. -/
inductive ProviderOutcome where
  | transport (msg : String)
  | badJson (msg : String)
  | responseBody (v : PyVal)

/-- Model of the request text built by `_get_embedding`
(vectorize_repo.py 314-317): the request is only issued for non-empty input,
and carries `text[:8192]`. -/
def getEmbeddingRequest (text : String) : Option String :=
  if text.isEmpty then none else some (pySliceTo text 8192)

/-- Model of the request text sent by `BuscadorSemantico.generar_embedding`
(busqueda.py 76-81): issued for non-empty input, with the text passed through
unmodified (no truncation in the source). -/
def generarEmbeddingRequest (texto : String) : Option String :=
  if texto.isEmpty then none else some texto

/-- Translation of `_get_embedding` (vectorize_repo.py 306-344).  Invalid
input returns `None`; the `try` block converts transport errors,
`JSONDecodeError` and the `ValueError`s of validation all into `None`
(the three `except` clauses, lines 336-344). -/
def getEmbedding (text : String) (outcome : ProviderOutcome) : Option (List PyVal) :=
  if text.isEmpty then none
  else
    match outcome with
    | .transport _ => none
    | .badJson _ => none
    | .responseBody v =>
      match validarRespuestaEmbedding v with
      | .ok embedding => some embedding
      | .error _ => none

/-! ### Batch orchestrator (`_process_chunks_batch`, vectorize_repo.py 346-365) -/

/-- A chunk dict as it enters `_process_chunks_batch` (the fields the
orchestrator and writer read). -/
structure PendingChunk where
  text : String
  file_path : String
  chunk_index : Nat
deriving DecidableEq, Repr

/-- One element of the list returned by
`asyncio.gather(*tasks, return_exceptions=True)`: either a captured exception
or the value returned by `_get_embedding` (which is `None` or a list). -/
inductive EmbResult (α : Type) where
  | exc (msg : String)
  | val (e : Option (List α))
deriving DecidableEq, Repr

/-- Failure of one gathered result: an exception, `None`, or an empty list —
exactly the cases where the loop body of `_process_chunks_batch` does not
append the chunk. -/
def isFailure {α : Type} : EmbResult α → Bool
  | .exc _ => true
  | .val none => true
  | .val (some e) => e.isEmpty

/-- Translation of the collection loop of `_process_chunks_batch`
(vectorize_repo.py 355-365): iterate `zip(chunks, embeddings)`; skip
exceptions (`isinstance(embedding, Exception)`), keep a chunk exactly when
`if embedding:` is truthy (not `None` and not the empty list), pairing each
kept chunk with its own embedding. -/
def processChunksBatch {α : Type} : List PendingChunk → List (EmbResult α) → List (PendingChunk × List α)
  | [], _ => []
  | _ :: _, [] => []
  | c :: cs, r :: rs =>
    match r with
    | .exc _ => processChunksBatch cs rs
    | .val none => processChunksBatch cs rs
    | .val (some e) =>
      if e.isEmpty then processChunksBatch cs rs
      else (c, e) :: processChunksBatch cs rs

/-- Specification form of the loop body of `_process_chunks_batch`: what one
`(chunk, embedding)` pair contributes to the returned list. -/
def keepResult {α : Type} : PendingChunk × EmbResult α → Option (PendingChunk × List α)
  | (c, .val (some e)) => if e.isEmpty then none else some (c, e)
  | _ => none

/-! ### Vector store writer (`_store_in_chromadb`, vectorize_repo.py 367-396) -/

/-- A chunk dict as it reaches `_store_in_chromadb` (after the orchestrator
attached an embedding). -/
structure StoreChunk where
  text : String
  file_path : String
  chunk_index : Nat
  embedding : List Rat
deriving DecidableEq, Repr

/-- Translation of the accumulation loop of `_store_in_chromadb`
(vectorize_repo.py 372-385): build the parallel `ids`, `embeddings`,
`documents` lists, the id of each entry being the hex digest (abstracted as
`sha`) of `f"{file_path}_{chunk_index}"`. -/
def storeEntries (sha : String → String) (chunks : List StoreChunk) :
    List String × List (List Rat) × List String :=
  chunks.foldl
    (fun acc c =>
      (acc.1 ++ [sha (c.file_path ++ "_" ++ toString c.chunk_index)],
       acc.2.1 ++ [c.embedding],
       acc.2.2 ++ [c.text]))
    ([], [], [])

/-- The id computed for a single chunk by `_store_in_chromadb`
(vectorize_repo.py 379-380). -/
def storeId (sha : String → String) (c : StoreChunk) : String :=
  sha (c.file_path ++ "_" ++ toString c.chunk_index)

/-! ### Query service (`BuscadorSemantico`, src/tools/busqueda.py) -/

/-- The collection name constant of busqueda.py (line 20). -/
def COLLECTION_NAME : String := "react_typescript_code"

/-- Translation of the collection lookup in `BuscadorSemantico.__init__`
(busqueda.py 41-45): `get_collection` succeeds iff the collection exists,
otherwise the wrapped `ValueError` is raised; the set of collections is
returned unchanged in both cases (the query service never creates one). -/
def buscadorInit (collections : List String) : Except String Unit × List String :=
  if COLLECTION_NAME ∈ collections then (.ok (), collections)
  else (.error "No se pudo encontrar la colección en ChromaDB", collections)

/-- Translation of the collection setup in `_setup_clients`
(vectorize_repo.py 107-116): try `get_collection`, and only on failure
(collection absent) `create_collection`. -/
def setupClientsCollections (collection_name : String) (collections : List String) : List String :=
  if collection_name ∈ collections then collections else collections ++ [collection_name]

/-- One formatted result of `BuscadorSemantico.buscar` (busqueda.py 114-119);
`μ` is the stored metadata type. -/
structure SearchResult (μ : Type) where
  contenido : String
  metadata : μ
  relevancia : Rat

/-- Translation of the formatting loop of `BuscadorSemantico.buscar`
(busqueda.py 113-119): walk the parallel `documents`, `metadatas`,
`distances` arrays in store order and attach `relevancia = 1 - distance`. -/
def buscarFormat {μ : Type} : List String → List μ → List Rat → List (SearchResult μ)
  | doc :: docs, m :: ms, d :: ds => ⟨doc, m, 1 - d⟩ :: buscarFormat docs ms ds
  | _, _, _ => []

/-! ### Token-aware chunker (`_chunk_content`, vectorize_repo.py 224-271, and
`_create_chunk_dict`, vectorize_repo.py 273-283) -/

/-- A chunk dict as produced by `_create_chunk_dict`: the text plus the
chunk-specific metadata fields (`chunk_index`, `chunk_size`, `token_count`);
the copied per-file metadata carries no chunk information and is omitted. -/
structure ChunkDict where
  text : String
  chunk_index : Nat
  chunk_size : Nat
  token_count : Nat
deriving DecidableEq, Repr

/-- Translation of `_create_chunk_dict` (vectorize_repo.py 273-283):
`chunk_size` is `len(text)` and `token_count` is
`len(self.tokenizer.encode(text))` of the joined chunk text. -/
def createChunkDict (tok : String → Nat) (text : String) (chunk_index : Nat) : ChunkDict :=
  ⟨text, chunk_index, text.length, tok text⟩

/-- The chunker configuration fields of `RepositoryVectorizer.__init__`
(vectorize_repo.py 51-53). -/
structure ChunkConfig where
  chunk_size : Nat
  chunk_overlap : Nat
  max_tokens_per_chunk : Nat
deriving DecidableEq, Repr

/-- Fuel-indexed loop for `pySlices`; the fuel (initially the list length)
only drives termination. -/
def pySlicesGo (k : Nat) : Nat → List Char → List (List Char)
  | _, [] => []
  | 0, _ :: _ => []
  | fuel + 1, c :: cs =>
    if k = 0 then []
    else (c :: cs).take k :: pySlicesGo k fuel ((c :: cs).drop k)

/-- Model of the Python loop `for i in range(0, len(line), k): line[i:i+k]`:
consecutive fixed-size slices of a character list.  (For `k = 0` Python
`range` raises `ValueError`; the model returns `[]` there.) -/
def pySlices (k : Nat) (l : List Char) : List (List Char) := pySlicesGo k l.length l

/-- The fixed-size character slices of one oversized line
(vectorize_repo.py 247-249), as strings. -/
def sliceLine (k : Nat) (line : String) : List String :=
  (pySlices k line.data).map String.mk

/-- Append one chunk dict to the chunk list: `chunks.append(
self._create_chunk_dict(text, metadata, len(chunks)))`. -/
def appendChunk (tok : String → Nat) (chunks : List ChunkDict) (text : String) : List ChunkDict :=
  chunks ++ [createChunkDict tok text chunks.length]

/-- The `if current_chunk: ... chunks.append(...)` flush step used at
vectorize_repo.py 240-242, 254-256 and 267-269. -/
def flushChunk (tok : String → Nat) (chunks : List ChunkDict) (cc : List String) : List ChunkDict :=
  if cc.isEmpty then chunks else appendChunk tok chunks (String.intercalate "\n" cc)

/-- Model of `sum(len(self.tokenizer.encode(l)) for l in current_chunk)`
(vectorize_repo.py 261). -/
def lineTokensSum (tok : String → Nat) (cc : List String) : Nat := (cc.map tok).sum

/-- Model of `current_chunk[-self.chunk_overlap:] if len(current_chunk) >
self.chunk_overlap else current_chunk` (vectorize_repo.py 259). -/
def overlapLines (cfg : ChunkConfig) (cc : List String) : List String :=
  if cc.length > cfg.chunk_overlap then pyTakeLast cc cfg.chunk_overlap else cc

/-- Translation of the line loop of `_chunk_content`
(vectorize_repo.py 235-269), with state `(chunks, current_chunk,
current_tokens)`:
* a line whose own token count exceeds the budget flushes the buffer and is
  emitted as fixed-size character slices, resetting the buffer;
* a line that would push the buffer over the budget flushes the buffer and
  seeds the next buffer with the trailing overlap window plus the line,
  recomputing the token sum;
* otherwise the line is appended to the buffer. -/
def chunkLoop (tok : String → Nat) (cfg : ChunkConfig) :
    List String → List ChunkDict → List String → Nat → List ChunkDict
  | [], chunks, cc, _ => flushChunk tok chunks cc
  | line :: rest, chunks, cc, ct =>
    if tok line > cfg.max_tokens_per_chunk then
      chunkLoop tok cfg rest
        ((sliceLine cfg.chunk_size line).foldl (appendChunk tok) (flushChunk tok chunks cc))
        [] 0
    else if ct + tok line > cfg.max_tokens_per_chunk then
      let ov := overlapLines cfg cc
      chunkLoop tok cfg rest (flushChunk tok chunks cc)
        (ov ++ [line]) (lineTokensSum tok (ov ++ [line]))
    else
      chunkLoop tok cfg rest chunks (cc ++ [line]) (ct + tok line)

/-- Translation of `_chunk_content` (vectorize_repo.py 224-271): empty for
blank/whitespace-only content, otherwise the line loop over
`content.split('\n')` starting from an empty buffer. -/
def chunkContent (tok : String → Nat) (cfg : ChunkConfig) (content : String) : List ChunkDict :=
  if (pyStrip content).isEmpty then [] else chunkLoop tok cfg (pyLines content) [] [] 0

/-! ### Instrumented chunker

`tChunkLoop` is `chunkLoop` with its emissions annotated by provenance:
a normal chunk keeps its buffer split as (overlap seed, fresh lines) together
with whether the buffer already exceeded the token budget when it was seeded,
and each slice of an oversized line records whether it is the first slice of
that line.  `chunkContent_eq_render` below proves that erasing the
annotations gives back `chunkContent` exactly. -/

/-- A chunk annotated with its provenance inside `_chunk_content`. -/
inductive TChunk where
  | norm (seed fresh : List String) (seedOver : Bool)
  | slice (first : Bool) (piece : String)
deriving DecidableEq, Repr

/-- The text of an annotated chunk, as `_chunk_content` emits it. -/
def TChunk.text : TChunk → String
  | .norm seed fresh _ => String.intercalate "\n" (seed ++ fresh)
  | .slice _ piece => piece

/-- Annotated slices of one oversized line: the first slice is marked. -/
def sliceTChunks : List String → List TChunk
  | [] => []
  | p :: ps => .slice true p :: ps.map (.slice false)

/-- The buffer flush of `chunkLoop`, annotated. -/
def flushT (seed fresh : List String) (seedOver : Bool) : List TChunk :=
  if (seed ++ fresh).isEmpty then [] else [.norm seed fresh seedOver]

/-- The line loop of `_chunk_content` with provenance annotations; the
buffer is carried as `(seed, fresh)` with `current_chunk = seed ++ fresh`,
and `seedOver` records whether the buffer exceeded the budget when seeded. -/
def tChunkLoop (tok : String → Nat) (cfg : ChunkConfig) :
    List String → List String → List String → Bool → Nat → List TChunk
  | [], seed, fresh, seedOver, _ => flushT seed fresh seedOver
  | line :: rest, seed, fresh, seedOver, ct =>
    if tok line > cfg.max_tokens_per_chunk then
      flushT seed fresh seedOver ++ sliceTChunks (sliceLine cfg.chunk_size line)
        ++ tChunkLoop tok cfg rest [] [] false 0
    else if ct + tok line > cfg.max_tokens_per_chunk then
      let ov := overlapLines cfg (seed ++ fresh)
      flushT seed fresh seedOver ++
        tChunkLoop tok cfg rest ov [line]
          (decide (lineTokensSum tok (ov ++ [line]) > cfg.max_tokens_per_chunk))
          (lineTokensSum tok (ov ++ [line]))
    else
      tChunkLoop tok cfg rest seed (fresh ++ [line]) seedOver (ct + tok line)

/-- Annotated counterpart of `chunkContent`. -/
def tChunks (tok : String → Nat) (cfg : ChunkConfig) (content : String) : List TChunk :=
  if (pyStrip content).isEmpty then [] else tChunkLoop tok cfg (pyLines content) [] [] false 0

/-- Erase the annotations, rebuilding the chunk dicts with their emission
indices. -/
def renderTChunks (tok : String → Nat) (tcs : List TChunk) : List ChunkDict :=
  tcs.foldl (fun chunks tc => appendChunk tok chunks tc.text) []

/-! ### CLI entry point (`main`, vectorize_repo.py 452-493) -/

/-- Observable outcome of a `main` run: the messages logged at error/info
level on the exit path, and the process exit status. -/
structure MainResult where
  logs : List String
  exitCode : Nat
deriving DecidableEq, Repr

/-- Translation of the exit paths of `main` (vectorize_repo.py 467-490).
When the repository path does not exist the error is logged and `main`
plainly `return`s, so the interpreter exits with status 0.  Otherwise the run
either completes (status 0) or its exception is re-raised (`raise`,
line 490), making the interpreter exit with status 1. -/
def vectorizeMain (repoPathExists : Bool) (repo_path : String)
    (run : Except String Unit) : MainResult :=
  if !repoPathExists then
    ⟨["El directorio " ++ repo_path ++ " no existe"], 0⟩
  else
    match run with
    | .ok _ => ⟨["¡Vectorización completada exitosamente!"], 0⟩
    | .error e => ⟨["Error durante la vectorización: " ++ e], 1⟩

/-! ### Reconstruction of the original line sequence from annotated chunks -/

/-- Concatenate a string onto the last line of an accumulated line list
(used to join consecutive slices of one oversized source line). -/
def glueLast : List String → String → List String
  | [], p => [p]
  | [a], p => [a ++ p]
  | a :: b :: rest, p => a :: glueLast (b :: rest) p

/-- Walk the emitted chunks in order, keeping each normal chunk's fresh
(non-overlap) lines, starting a new line at the first slice of an oversized
line and gluing its later slices onto it. -/
def rebuildLines : List String → List TChunk → List String
  | acc, [] => acc
  | acc, .norm _ fresh _ :: r => rebuildLines (acc ++ fresh) r
  | acc, .slice true p :: r => rebuildLines (acc ++ [p]) r
  | acc, .slice false p :: r => rebuildLines (glueLast acc p) r

/-- The line sequence reconstructed from the emitted chunks after dropping
each chunk's seeded overlap lines. -/
def rebuild (tcs : List TChunk) : List String := rebuildLines [] tcs

/-- A concrete 8193-character query text (for the truncation claim). -/
def bigText : String := String.mk (List.replicate 8193 'a')

/-! ## Helper lemmas -/

/-- Length of the concrete 8193-character text. -/
theorem bigText_length : bigText.length = 8193 := by
  rw [show bigText.length = (List.replicate 8193 'a').length from rfl, List.length_replicate]

/-- The concrete 8193-character text is not empty. -/
theorem bigText_isEmpty_false : bigText.isEmpty = false := by
  rw [Bool.eq_false_iff]
  intro h
  have hne : bigText ≠ "" := by
    intro he
    have hlen := bigText_length
    rw [he] at hlen
    exact absurd hlen (by decide)
  exact hne ((String.isEmpty_iff _).mp h)

/-- The fuel of `pySlicesGo` is irrelevant once it covers the list length. -/
theorem pySlicesGo_fuel (k : Nat) :
    ∀ (f₁ f₂ : Nat) (l : List Char), l.length ≤ f₁ → l.length ≤ f₂ →
      pySlicesGo k f₁ l = pySlicesGo k f₂ l := by
  intro f₁
  induction f₁ with
  | zero =>
    intro f₂ l h₁ h₂
    cases l with
    | nil => cases f₂ <;> rfl
    | cons c cs => simp at h₁
  | succ f₁ ih =>
    intro f₂ l h₁ h₂
    cases l with
    | nil => cases f₂ <;> rfl
    | cons c cs =>
      cases f₂ with
      | zero => simp at h₂
      | succ f₂ =>
        rw [pySlicesGo, pySlicesGo]
        by_cases hk : k = 0
        · rw [if_pos hk, if_pos hk]
        · rw [if_neg hk, if_neg hk,
            ih f₂ ((c :: cs).drop k) (by simp only [List.length_drop]; omega)
              (by simp only [List.length_drop]; omega)]

/-- Unfolding equation for `pySlices` on a non-empty list. -/
theorem pySlices_cons (k : Nat) (hk : k ≠ 0) (c : Char) (cs : List Char) :
    pySlices k (c :: cs) = (c :: cs).take k :: pySlices k ((c :: cs).drop k) := by
  unfold pySlices
  rw [show (c :: cs).length = cs.length + 1 from rfl, pySlicesGo, if_neg hk]
  rw [pySlicesGo_fuel k cs.length ((c :: cs).drop k).length ((c :: cs).drop k)
    (by simp only [List.length_drop, List.length_cons]; omega) le_rfl]

/-- Joining the fixed-size character slices of a list gives back the list. -/
theorem pySlices_flatten (k : Nat) (hk : k ≠ 0) :
    ∀ (n : Nat) (l : List Char), l.length ≤ n → (pySlices k l).flatten = l := by
  intro n
  induction n with
  | zero =>
    intro l hl
    cases l with
    | nil => rfl
    | cons c cs => simp at hl
  | succ n ih =>
    intro l hl
    cases l with
    | nil => rfl
    | cons c cs =>
      rw [pySlices_cons k hk, List.flatten_cons,
        ih ((c :: cs).drop k) (by simp only [List.length_drop]; omega)]
      exact List.take_append_drop k (c :: cs)

/-- The number of fixed-size slices of a non-empty list is
`⌈length / k⌉ = (length + k - 1) / k`. -/
theorem pySlices_length (k : Nat) (hk : k ≠ 0) :
    ∀ (n : Nat) (l : List Char), l.length ≤ n → l ≠ [] →
      (pySlices k l).length = (l.length + k - 1) / k := by
  intro n
  induction n with
  | zero =>
    intro l hl hne
    cases l with
    | nil => exact absurd rfl hne
    | cons c cs => simp at hl
  | succ n ih =>
    intro l hl hne
    cases l with
    | nil => exact absurd rfl hne
    | cons c cs =>
      rw [pySlices_cons k hk, List.length_cons]
      by_cases hdrop : (c :: cs).drop k = []
      · rw [hdrop]
        have hlk : (c :: cs).length ≤ k := by
          have := congrArg List.length hdrop
          simp only [List.length_drop, List.length_nil] at this
          omega
        have h1 : 1 * k ≤ (c :: cs).length + k - 1 := by
          simp only [List.length_cons]; omega
        have h2 : (c :: cs).length + k - 1 < (1 + 1) * k := by
          simp only [List.length_cons] at hlk ⊢; omega
        rw [show pySlices k ([] : List Char) = [] from rfl]
        simp only [List.length_nil]
        rw [Nat.div_eq_of_lt_le h1 h2]
      · have hlen : ((c :: cs).drop k).length ≤ n := by
          simp only [List.length_drop]
          simp only [List.length_cons] at hl ⊢
          omega
        rw [ih ((c :: cs).drop k) hlen hdrop]
        have hgt : k < (c :: cs).length := by
          have := List.length_pos.mpr hdrop
          simp only [List.length_drop] at this
          omega
        rw [List.length_drop]
        have e1 : (c :: cs).length - k + k - 1 = (c :: cs).length - 1 := by omega
        have e2 : (c :: cs).length + k - 1 = ((c :: cs).length - 1) + k := by
          simp only [List.length_cons]; omega
        rw [e1, e2, Nat.add_div_right _ (Nat.pos_of_ne_zero hk)]

/-- Folding `appendChunk` over a text list adds one chunk per text. -/
theorem foldl_appendChunk_length (tok : String → Nat) :
    ∀ (texts : List String) (acc : List ChunkDict),
      (texts.foldl (appendChunk tok) acc).length = acc.length + texts.length := by
  intro texts
  induction texts with
  | nil => intro acc; simp
  | cons t ts ih =>
    intro acc
    rw [List.foldl_cons, ih]
    simp [appendChunk]
    omega

/-- The `ids` list built by `_store_in_chromadb` is the map of `storeId` over
the batch, whatever the accumulator. -/
theorem storeEntries_foldl_fst (sha : String → String) :
    ∀ (chunks : List StoreChunk) (acc : List String × List (List Rat) × List String),
      (List.foldl
        (fun acc c =>
          (acc.1 ++ [sha (c.file_path ++ "_" ++ toString c.chunk_index)],
           acc.2.1 ++ [c.embedding],
           acc.2.2 ++ [c.text])) acc chunks).1
        = acc.1 ++ chunks.map (storeId sha) := by
  intro chunks
  induction chunks with
  | nil => intro acc; simp
  | cons c cs ih =>
    intro acc
    simp only [List.foldl_cons, List.map_cons]
    rw [ih]
    simp [storeId]

/-- The relevance column of `buscar`'s formatted output is `1 - d` over the
stored distances, in store order. -/
theorem buscarFormat_map_relevancia {μ : Type} :
    ∀ (ds : List Rat) (docs : List String) (ms : List μ),
      docs.length = ds.length → ms.length = ds.length →
      (buscarFormat docs ms ds).map SearchResult.relevancia = ds.map (fun d => 1 - d) := by
  intro ds
  induction ds with
  | nil =>
    intro docs ms hdoc hms
    simp only [List.length_nil] at hdoc hms
    rw [List.length_eq_zero] at hdoc hms
    subst hdoc; subst hms
    rfl
  | cons d ds ih =>
    intro docs ms hdoc hms
    cases docs with
    | nil => simp at hdoc
    | cons doc docs =>
      cases ms with
      | nil => simp at hms
      | cons m ms =>
        simp only [List.length_cons, Nat.succ.injEq] at hdoc hms
        simp only [buscarFormat, List.map_cons]
        rw [ih docs ms hdoc hms]

/-- A successfully validated embedding response is non-empty and fully
numeric. -/
theorem validarRespuestaEmbedding_ok (v : PyVal) (e : List PyVal)
    (h : validarRespuestaEmbedding v = .ok e) : e ≠ [] ∧ e.all isPyNumber = true := by
  cases v with
  | dict d =>
    simp only [validarRespuestaEmbedding] at h
    split at h
    · exact absurd h (by simp)
    · split at h
      · exact absurd h (by simp)
      · rename_i hne
        split at h
        · rename_i hnum
          cases h
          exact ⟨fun hl => hne (by simp [hl]), hnum⟩
        · exact absurd h (by simp)
    · exact absurd h (by simp)
  | int n => exact absurd h (by simp [validarRespuestaEmbedding])
  | float q => exact absurd h (by simp [validarRespuestaEmbedding])
  | bool b => exact absurd h (by simp [validarRespuestaEmbedding])
  | str s => exact absurd h (by simp [validarRespuestaEmbedding])
  | list l => exact absurd h (by simp [validarRespuestaEmbedding])
  | pynone => exact absurd h (by simp [validarRespuestaEmbedding])

/-- Rendering the flush of an annotated buffer is the plain flush. -/
theorem foldl_flushT (tok : String → Nat) (chunks : List ChunkDict)
    (seed fresh : List String) (so : Bool) :
    (flushT seed fresh so).foldl (fun chs tc => appendChunk tok chs tc.text) chunks
      = flushChunk tok chunks (seed ++ fresh) := by
  by_cases h : (seed ++ fresh).isEmpty <;>
    simp [flushT, flushChunk, h, TChunk.text]

/-- Rendering the annotated slices of a line appends the plain slice chunks. -/
theorem foldl_sliceT (tok : String → Nat) (pieces : List String) (acc : List ChunkDict) :
    (sliceTChunks pieces).foldl (fun chs tc => appendChunk tok chs tc.text) acc
      = pieces.foldl (appendChunk tok) acc := by
  cases pieces with
  | nil => rfl
  | cons p ps => simp [sliceTChunks, List.foldl_map, TChunk.text]

/-- The annotated chunker erases to the source chunker: rendering the
annotated emissions from any loop state gives `chunkLoop` on that state. -/
theorem chunkLoop_eq_render (tok : String → Nat) (cfg : ChunkConfig) :
    ∀ (lines seed fresh : List String) (so : Bool) (ct : Nat) (chunks : List ChunkDict),
      chunkLoop tok cfg lines chunks (seed ++ fresh) ct
        = (tChunkLoop tok cfg lines seed fresh so ct).foldl
            (fun chs tc => appendChunk tok chs tc.text) chunks := by
  intro lines
  induction lines with
  | nil =>
    intro seed fresh so ct chunks
    rw [chunkLoop, tChunkLoop, foldl_flushT]
  | cons line rest ih =>
    intro seed fresh so ct chunks
    by_cases h1 : tok line > cfg.max_tokens_per_chunk
    · rw [chunkLoop, tChunkLoop]
      rw [if_pos h1, if_pos h1]
      rw [List.foldl_append, List.foldl_append, foldl_flushT, foldl_sliceT]
      exact ih [] [] false 0 _
    · by_cases h2 : ct + tok line > cfg.max_tokens_per_chunk
      · rw [chunkLoop, tChunkLoop]
        rw [if_neg h1, if_neg h1, if_pos h2, if_pos h2]
        rw [List.foldl_append, foldl_flushT]
        exact ih (overlapLines cfg (seed ++ fresh)) [line] _ _ _
      · rw [chunkLoop, tChunkLoop]
        rw [if_neg h1, if_neg h1, if_neg h2, if_neg h2]
        rw [List.append_assoc]
        exact ih seed (fresh ++ [line]) so (ct + tok line) chunks

/-- Erasing the annotations of `tChunks` gives `chunkContent` exactly. -/
theorem chunkContent_eq_render (tok : String → Nat) (cfg : ChunkConfig) (content : String) :
    chunkContent tok cfg content = renderTChunks tok (tChunks tok cfg content) := by
  unfold chunkContent tChunks renderTChunks
  by_cases h : (pyStrip content).isEmpty
  · rw [if_pos h, if_pos h]; rfl
  · rw [if_neg h, if_neg h]
    exact chunkLoop_eq_render tok cfg (pyLines content) [] [] false 0 []

/-- A normal chunk never occurs among the annotated slices of a line. -/
theorem norm_not_mem_sliceT (ps : List String) (s f : List String) (b : Bool) :
    TChunk.norm s f b ∉ sliceTChunks ps := by
  intro h
  cases ps with
  | nil => simp [sliceTChunks] at h
  | cons p pr =>
    simp only [sliceTChunks, List.mem_cons, List.mem_map] at h
    rcases h with h | ⟨x, _, h⟩ <;> exact TChunk.noConfusion h

/-- Membership in a flushed buffer identifies the chunk. -/
theorem norm_mem_flushT (seed fresh s f : List String) (so b : Bool)
    (h : TChunk.norm s f b ∈ flushT seed fresh so) :
    s = seed ∧ f = fresh ∧ b = so := by
  unfold flushT at h
  by_cases he : (seed ++ fresh).isEmpty
  · rw [if_pos he] at h; simp at h
  · rw [if_neg he] at h
    simp only [List.mem_singleton, TChunk.norm.injEq] at h
    exact h

/-- Invariant of the chunk loop: whenever the running buffer was not seeded
over budget, its token sum stays within the budget, so every emitted normal
chunk that is not marked `seedOver` has per-line token sum within the
budget. -/
theorem tChunkLoop_norm_bound (tok : String → Nat) (cfg : ChunkConfig) :
    ∀ (lines seed fresh : List String) (so : Bool) (ct : Nat),
      ct = lineTokensSum tok (seed ++ fresh) →
      (so = false → ct ≤ cfg.max_tokens_per_chunk) →
      ∀ s f, TChunk.norm s f false ∈ tChunkLoop tok cfg lines seed fresh so ct →
        lineTokensSum tok (s ++ f) ≤ cfg.max_tokens_per_chunk := by
  intro lines
  induction lines with
  | nil =>
    intro seed fresh so ct hct hso s f hmem
    rw [tChunkLoop] at hmem
    obtain ⟨rfl, rfl, hb⟩ := norm_mem_flushT seed fresh s f so false hmem
    exact hct ▸ hso hb.symm
  | cons line rest ih =>
    intro seed fresh so ct hct hso s f hmem
    by_cases h1 : tok line > cfg.max_tokens_per_chunk
    · rw [tChunkLoop, if_pos h1] at hmem
      rw [List.append_assoc, List.mem_append] at hmem
      rcases hmem with hmem | hmem
      · obtain ⟨rfl, rfl, hb⟩ := norm_mem_flushT seed fresh s f so false hmem
        exact hct ▸ hso hb.symm
      · rw [List.mem_append] at hmem
        rcases hmem with hmem | hmem
        · exact absurd hmem (norm_not_mem_sliceT _ s f false)
        · exact ih [] [] false 0 rfl (fun _ => Nat.zero_le _) s f hmem
    · by_cases h2 : ct + tok line > cfg.max_tokens_per_chunk
      · rw [tChunkLoop, if_neg h1, if_pos h2] at hmem
        rw [List.mem_append] at hmem
        rcases hmem with hmem | hmem
        · obtain ⟨rfl, rfl, hb⟩ := norm_mem_flushT seed fresh s f so false hmem
          exact hct ▸ hso hb.symm
        · refine ih _ [line] _ _ rfl (fun hd => ?_) s f hmem
          exact Nat.le_of_not_lt (decide_eq_false_iff_not.mp hd)
      · rw [tChunkLoop, if_neg h1, if_neg h2] at hmem
        refine ih seed (fresh ++ [line]) so (ct + tok line) ?_ (fun _ => Nat.le_of_not_lt h2) s f hmem
        subst hct
        simp [lineTokensSum, List.map_append, List.sum_append]
        omega

/-- Gluing onto the last element of a non-empty accumulated list. -/
theorem glueLast_append (p : String) :
    ∀ (acc : List String) (l : String), glueLast (acc ++ [l]) p = acc ++ [l ++ p] := by
  intro acc
  induction acc with
  | nil => intro l; rfl
  | cons a rest ih =>
    intro l
    cases rest with
    | nil => rfl
    | cons b rest2 =>
      show glueLast (a :: (b :: rest2 ++ [l])) p = a :: (b :: rest2 ++ [l ++ p])
      rw [show (b :: rest2 ++ [l]) = b :: (rest2 ++ [l]) from rfl, glueLast]
      rw [show b :: (rest2 ++ [l]) = (b :: rest2) ++ [l] from rfl, ih l]

/-- Rebuilding distributes over appended chunk lists. -/
theorem rebuildLines_append :
    ∀ (l₁ l₂ : List TChunk) (acc : List String),
      rebuildLines acc (l₁ ++ l₂) = rebuildLines (rebuildLines acc l₁) l₂ := by
  intro l₁
  induction l₁ with
  | nil => intro l₂ acc; rfl
  | cons tc rest ih =>
    intro l₂ acc
    cases tc with
    | norm s f so => simp only [List.cons_append, rebuildLines]; exact ih l₂ _
    | slice b p =>
      cases b <;> (simp only [List.cons_append, rebuildLines]; exact ih l₂ _)

/-- Rebuilding over the non-first slices of a line glues them onto the
current last line. -/
theorem rebuildLines_slice_glue :
    ∀ (ps : List String) (acc : List String) (l : String),
      rebuildLines (acc ++ [l]) (ps.map (TChunk.slice false))
        = acc ++ [ps.foldl (fun a b => a ++ b) l] := by
  intro ps
  induction ps with
  | nil => intro acc l; rfl
  | cons p pr ih =>
    intro acc l
    simp only [List.map_cons, rebuildLines, List.foldl_cons]
    rw [glueLast_append, ih]

/-- Folding string concatenation over slices recovers the flattened text. -/
theorem foldl_mk_append :
    ∀ (ls : List (List Char)) (a : List Char),
      (ls.map String.mk).foldl (fun x y => x ++ y) (String.mk a)
        = String.mk (a ++ ls.flatten) := by
  intro ls
  induction ls with
  | nil => intro a; simp
  | cons l rest ih =>
    intro a
    simp only [List.map_cons, List.foldl_cons, List.flatten_cons]
    rw [show String.mk a ++ String.mk l = String.mk (a ++ l) from rfl, ih,
      List.append_assoc]

/-- Rebuilding the annotated slices of a non-empty line contributes exactly
that line. -/
theorem rebuild_sliceT (k : Nat) (hk : k ≠ 0) (line : String) (hline : line.data ≠ [])
    (acc : List String) :
    rebuildLines acc (sliceTChunks (sliceLine k line)) = acc ++ [line] := by
  cases hds : line.data with
  | nil => exact absurd hds hline
  | cons c cs =>
    unfold sliceLine
    rw [hds, pySlices_cons k hk]
    simp only [List.map_cons, sliceTChunks, rebuildLines]
    rw [rebuildLines_slice_glue, foldl_mk_append,
      pySlices_flatten k hk ((c :: cs).drop k).length _ le_rfl,
      List.take_append_drop, ← hds]

/-- Rebuilding a flushed buffer contributes exactly its fresh lines. -/
theorem rebuild_flushT (acc seed fresh : List String) (so : Bool) :
    rebuildLines acc (flushT seed fresh so) = acc ++ fresh := by
  unfold flushT
  by_cases h : (seed ++ fresh).isEmpty
  · rw [if_pos h]
    have : fresh = [] := by
      rw [List.isEmpty_iff, List.append_eq_nil] at h
      exact h.2
    rw [this, List.append_nil]
    rfl
  · rw [if_neg h]
    rfl

/-- Coverage invariant of the chunk loop: from any state, the fresh lines of
the buffer followed by the remaining input lines are exactly what rebuilding
the emitted chunks appends. -/
theorem tChunkLoop_rebuild (tok : String → Nat) (cfg : ChunkConfig)
    (htok : tok "" = 0) (hk : cfg.chunk_size ≠ 0) :
    ∀ (lines acc seed fresh : List String) (so : Bool) (ct : Nat),
      rebuildLines acc (tChunkLoop tok cfg lines seed fresh so ct)
        = (acc ++ fresh) ++ lines := by
  intro lines
  induction lines with
  | nil =>
    intro acc seed fresh so ct
    rw [tChunkLoop, rebuild_flushT, List.append_nil]
  | cons line rest ih =>
    intro acc seed fresh so ct
    by_cases h1 : tok line > cfg.max_tokens_per_chunk
    · have hline : line.data ≠ [] := by
        intro hd
        have : line = "" := by
          have := congrArg String.mk hd
          simpa using this
        rw [this, htok] at h1
        exact Nat.not_lt_zero _ h1
      rw [tChunkLoop, if_pos h1, rebuildLines_append, rebuildLines_append,
        rebuild_flushT, rebuild_sliceT cfg.chunk_size hk line hline, ih]
      simp
    · by_cases h2 : ct + tok line > cfg.max_tokens_per_chunk
      · rw [tChunkLoop, if_neg h1, if_pos h2, rebuildLines_append,
          rebuild_flushT, ih]
        simp
      · rw [tChunkLoop, if_neg h1, if_neg h2, ih]
        simp

/-! ## Claim theorems -/

/-- C1 (amended): every chunk produced by `_chunk_content` that is neither an
oversized-single-line slice nor a chunk whose buffer already exceeded the
budget when it was seeded from the overlap window has per-line token sum at
most `max_tokens_per_chunk`.  (The recorded `token_count` of a chunk measures
the newline-joined text, which can exceed this per-line sum, and
overlap-seeded chunks can exceed the budget — see the counterexample.) -/
theorem chunk_token_budget_amended :
    ∀ (tok : String → Nat) (cfg : ChunkConfig) (content : String) (seed fresh : List String),
      TChunk.norm seed fresh false ∈ tChunks tok cfg content →
      lineTokensSum tok (seed ++ fresh) ≤ cfg.max_tokens_per_chunk := by
  intro tok cfg content seed fresh h
  unfold tChunks at h
  by_cases hb : (pyStrip content).isEmpty
  · rw [if_pos hb] at h; simp at h
  · rw [if_neg hb] at h
    exact tChunkLoop_norm_bound tok cfg (pyLines content) [] [] false 0 rfl
      (fun _ => Nat.zero_le _) seed fresh h

/-- Witness for C1 (amended) at a concrete input: the single chunk of
`"hi\nyo"` under budget 4 stays within the budget. -/
theorem chunk_token_budget_witness :
    lineTokensSum String.length ([] ++ ["hi", "yo"]) ≤ 4 :=
  chunk_token_budget_amended String.length ⟨500, 50, 4⟩ "hi\nyo" [] ["hi", "yo"] (by decide)

/-- Counterexample for C1 as stated: with the tokenizer instance
`tok = String.length` and budget 4, the input `"aa\nbb"` produces a single
chunk that is not an oversized-line slice (it is a normal, never-seeded
chunk) whose recorded `token_count` is 5 > 4: joining buffered lines with
`'\n'` makes the recorded count exceed the budgeted per-line sum. -/
theorem chunk_token_budget_counterexample :
    chunkContent String.length ⟨500, 50, 4⟩ "aa\nbb"
      = [⟨"aa\nbb", 0, 5, 5⟩]
    ∧ tChunks String.length ⟨500, 50, 4⟩ "aa\nbb"
      = [TChunk.norm [] ["aa", "bb"] false]
    ∧ 4 < 5 := by
  refine ⟨by decide, by decide, by decide⟩

/-- C2 (amended): for every input that is not blank/whitespace-only (with a
tokenizer giving the empty string zero tokens and a positive slice size),
concatenating the chunks in emission order, dropping each normal chunk's
seeded overlap lines and joining the consecutive slices of each oversized
line, reconstructs the original line sequence exactly — no input line is
lost.  (Blank input produces no chunks, so the unrestricted claim fails.) -/
theorem chunk_coverage_amended :
    ∀ (tok : String → Nat) (cfg : ChunkConfig) (content : String),
      tok "" = 0 → cfg.chunk_size ≠ 0 → ¬(pyStrip content).isEmpty = true →
      rebuild (tChunks tok cfg content) = pyLines content := by
  intro tok cfg content htok hk hcontent
  unfold tChunks rebuild
  rw [if_neg hcontent]
  have := tChunkLoop_rebuild tok cfg htok hk (pyLines content) [] [] [] false 0
  simpa using this

/-- Witness for C2 (amended) at a concrete input. -/
theorem chunk_coverage_witness :
    rebuild (tChunks String.length ⟨500, 50, 2000⟩ "hola\nmundo")
      = pyLines "hola\nmundo" :=
  chunk_coverage_amended String.length ⟨500, 50, 2000⟩ "hola\nmundo" rfl
    (by decide) (by decide)

/-- Counterexample for C2 as stated: the whitespace-only input `" "` has the
line sequence `[" "]` but produces no chunks at all, so its line appears in
no chunk and no reconstruction is possible. -/
theorem chunk_coverage_counterexample :
    tChunks String.length ⟨500, 50, 2000⟩ " " = []
    ∧ pyLines " " = [" "]
    ∧ rebuild (tChunks String.length ⟨500, 50, 2000⟩ " ") ≠ pyLines " " := by
  refine ⟨by decide, by decide, by decide⟩

/-- C6 (amended): a line whose token count exceeds the budget makes
`_chunk_content` flush the current buffer (if non-empty), emit the line as
consecutive `chunk_size`-character slices — each its own chunk, with no token
re-validation — and reset the buffer; a non-blank single-line file whose line
exceeds the budget therefore yields exactly
`⌈len(line) / chunk_size⌉ = (len(line) + chunk_size - 1) / chunk_size`
slices, a count determined by the character length, not by the token count
(so a 10,000-token line need not yield 5 slices). -/
theorem oversized_line_slices_amended :
    ∀ (tok : String → Nat) (cfg : ChunkConfig), cfg.chunk_size ≠ 0 →
      (∀ (line : String) (rest : List String) (chunks : List ChunkDict)
          (cc : List String) (ct : Nat),
          tok line > cfg.max_tokens_per_chunk →
          chunkLoop tok cfg (line :: rest) chunks cc ct
            = chunkLoop tok cfg rest
                ((sliceLine cfg.chunk_size line).foldl (appendChunk tok)
                  (flushChunk tok chunks cc)) [] 0)
      ∧ (∀ (content : String),
          ¬(pyStrip content).isEmpty = true → pyLines content = [content] →
          tok content > cfg.max_tokens_per_chunk →
          (chunkContent tok cfg content).length
            = (content.length + cfg.chunk_size - 1) / cfg.chunk_size) := by
  intro tok cfg hk
  constructor
  · intro line rest chunks cc ct h
    rw [chunkLoop, if_pos h]
  · intro content hblank hlines h
    have hdata : content.data ≠ [] := by
      intro hd
      have : content = "" := by
        have := congrArg String.mk hd
        simpa using this
      rw [this] at hblank
      exact hblank (by decide)
    unfold chunkContent
    rw [if_neg hblank, hlines, chunkLoop, if_pos h, chunkLoop]
    rw [show flushChunk tok ((sliceLine cfg.chunk_size content).foldl (appendChunk tok)
      (flushChunk tok [] [])) [] = (sliceLine cfg.chunk_size content).foldl (appendChunk tok)
      (flushChunk tok [] []) from rfl]
    rw [show flushChunk tok [] [] = [] from rfl]
    rw [foldl_appendChunk_length]
    unfold sliceLine
    rw [List.length_nil, List.length_map,
      pySlices_length cfg.chunk_size hk content.data.length content.data le_rfl hdata,
      Nat.zero_add]
    rfl

/-- Witness for C6 (amended) at a concrete input: the 8-character line
`"abcdefgh"` with slice size 3 yields `⌈8/3⌉ = 3` slices. -/
theorem oversized_line_slices_witness :
    (chunkContent String.length ⟨3, 50, 2⟩ "abcdefgh").length
      = ("abcdefgh".length + 3 - 1) / 3 :=
  (oversized_line_slices_amended String.length ⟨3, 50, 2⟩ (by decide)).2
    "abcdefgh" (by decide) (by decide) (by decide)

/-- Counterexample for C6 as stated: under the tokenizer instance
`tok = fun _ => 10000`, the single-line file `"a"` is a line of 10,000 tokens
with budget 2000, yet it is emitted as 1 slice (its character length is 1 and
`chunk_size` is 500), not 5. -/
theorem oversized_line_slices_counterexample :
    chunkContent (fun _ => 10000) ⟨500, 50, 2000⟩ "a" = [⟨"a", 0, 1, 10000⟩]
    ∧ (chunkContent (fun _ => 10000) ⟨500, 50, 2000⟩ "a").length ≠ 5 := by
  refine ⟨by decide, by decide⟩

/-- C7 (amended): the indexing pipeline's `_get_embedding` truncates every
request text to at most 8192 characters, but the query service's
`generar_embedding` sends its text unmodified, with no truncation. -/
theorem input_truncation_amended :
    (∀ (text r : String), getEmbeddingRequest text = some r → r.length ≤ 8192)
    ∧ (∀ (texto r : String), generarEmbeddingRequest texto = some r → r = texto) := by
  constructor
  · intro text r h
    unfold getEmbeddingRequest at h
    by_cases he : text.isEmpty
    · rw [if_pos he] at h; exact absurd h (by simp)
    · rw [if_neg he] at h
      have hr : r = pySliceTo text 8192 := by
        cases h
        rfl
      rw [hr]
      exact List.length_take_le 8192 text.data
  · intro texto r h
    unfold generarEmbeddingRequest at h
    by_cases he : texto.isEmpty
    · rw [if_pos he] at h; exact absurd h (by simp)
    · rw [if_neg he] at h
      cases h
      rfl

/-- Witness for C7 (amended) at a concrete input. -/
theorem input_truncation_witness :
    (pySliceTo "hola consulta" 8192).length ≤ 8192
    ∧ ("hola consulta" : String) = "hola consulta" :=
  ⟨(input_truncation_amended).1 "hola consulta" (pySliceTo "hola consulta" 8192) (by decide),
   (input_truncation_amended).2 "hola consulta" "hola consulta" (by decide)⟩

/-- Counterexample for C7 as stated: an 8193-character query text is sent by
`generar_embedding` untruncated, exceeding the 8192-character limit. -/
theorem input_truncation_counterexample :
    generarEmbeddingRequest bigText = some bigText ∧ 8192 < bigText.length := by
  constructor
  · rw [generarEmbeddingRequest, bigText_isEmpty_false]
    rfl
  · rw [bigText_length]
    omega

/-- C3: every id written by `_store_in_chromadb` is the (abstracted SHA-256)
hex digest of `file_path ++ "_" ++ chunk_index`, in batch order, and the id
is a function of `(file_path, chunk_index)` alone — chunks differing only in
text or embedding receive the same id, so re-running on unchanged content
yields identical ids. -/
theorem store_ids_from_path_and_index :
    ∀ (sha : String → String) (chunks : List StoreChunk),
      (storeEntries sha chunks).1 = chunks.map (storeId sha)
      ∧ ∀ c c' : StoreChunk, c.file_path = c'.file_path → c.chunk_index = c'.chunk_index →
          storeId sha c = storeId sha c' := by
  intro sha chunks
  constructor
  · simpa [storeEntries] using storeEntries_foldl_fst sha chunks ([], [], [])
  · intro c c' hp hi
    simp [storeId, hp, hi]

/-- Witness for C3 at a concrete batch: two chunks with the same path and
index but different text and embedding get the same stored id. -/
theorem store_ids_witness :
    storeId (fun s => s) ⟨"texto A", "src/App.tsx", 3, []⟩
      = storeId (fun s => s) ⟨"otro texto", "src/App.tsx", 3, [1]⟩ :=
  (store_ids_from_path_and_index (fun s => s) []).2
    ⟨"texto A", "src/App.tsx", 3, []⟩ ⟨"otro texto", "src/App.tsx", 3, [1]⟩ rfl rfl

/-- C4: `buscar` returns results in the store's order with
`relevancia = 1 - distance` exactly, so strictly increasing stored distances
yield strictly decreasing relevance (descending-relevance order). -/
theorem buscar_relevancia (μ : Type) :
    ∀ (docs : List String) (ms : List μ) (ds : List Rat),
      docs.length = ds.length → ms.length = ds.length →
      ((buscarFormat docs ms ds).map SearchResult.relevancia = ds.map (fun d => 1 - d))
      ∧ (List.Pairwise (· < ·) ds →
          List.Pairwise (· > ·) ((buscarFormat docs ms ds).map SearchResult.relevancia)) := by
  intro docs ms ds hdoc hms
  have hmap := buscarFormat_map_relevancia ds docs ms hdoc hms
  refine ⟨hmap, fun hsorted => ?_⟩
  rw [hmap, List.pairwise_map]
  exact hsorted.imp fun hab => by exact sub_lt_sub_left hab 1

/-- Witness for C4 at a concrete reply: distances `[1/4, 1/2]` give
relevances `[1 - 1/4, 1 - 1/2]`. -/
theorem buscar_relevancia_witness :
    (buscarFormat ["x", "y"] [(), ()] [(1 : Rat)/4, (1 : Rat)/2]).map SearchResult.relevancia
      = [(1 : Rat)/4, (1 : Rat)/2].map (fun d => 1 - d) :=
  (buscar_relevancia Unit ["x", "y"] [(), ()] [(1 : Rat)/4, (1 : Rat)/2] rfl rfl).1

/-- C5: `_process_chunks_batch` keeps exactly the chunks whose gathered
result is a successful non-empty embedding, each paired with its own
embedding in batch order; and a failing result (exception, `None`, or empty)
at position `i` removes only that pair — the rest of the batch is processed
as if the pair were absent. -/
theorem process_batch_pairing (α : Type) :
    (∀ (chunks : List PendingChunk) (embs : List (EmbResult α)),
        processChunksBatch chunks embs = (chunks.zip embs).filterMap keepResult)
    ∧ (∀ (chunks : List PendingChunk) (embs : List (EmbResult α)) (i : Nat)
        (h : i < embs.length), isFailure (embs.get ⟨i, h⟩) = true →
        processChunksBatch chunks embs
          = processChunksBatch (chunks.eraseIdx i) (embs.eraseIdx i)) := by
  constructor
  · intro chunks
    induction chunks with
    | nil => intro embs; cases embs <;> simp [processChunksBatch]
    | cons c cs ih =>
      intro embs
      cases embs with
      | nil => simp [processChunksBatch]
      | cons r rs =>
        cases r with
        | exc m => simp [processChunksBatch, keepResult, ih]
        | val e =>
          cases e with
          | none => simp [processChunksBatch, keepResult, ih]
          | some v =>
            by_cases hv : v.isEmpty <;>
              simp [processChunksBatch, keepResult, hv, ih]
  · intro chunks embs i
    induction i generalizing chunks embs with
    | zero =>
      intro h hfail
      cases embs with
      | nil => simp at h
      | cons r rs =>
        cases chunks with
        | nil => simp [processChunksBatch]
        | cons c cs =>
          simp only [List.get] at hfail
          cases r with
          | exc m => simp [processChunksBatch, List.eraseIdx]
          | val e =>
            cases e with
            | none => simp [processChunksBatch, List.eraseIdx]
            | some v =>
              simp only [isFailure] at hfail
              simp [processChunksBatch, List.eraseIdx, hfail]
    | succ i ih =>
      intro h hfail
      cases embs with
      | nil => simp at h
      | cons r rs =>
        cases chunks with
        | nil => simp [processChunksBatch, List.eraseIdx]
        | cons c cs =>
          simp only [List.get] at hfail
          have h' : i < rs.length := by simpa using h
          have := ih cs rs h' hfail
          cases r with
          | exc m => simpa [processChunksBatch, List.eraseIdx] using this
          | val e =>
            cases e with
            | none => simpa [processChunksBatch, List.eraseIdx] using this
            | some v =>
              by_cases hv : v.isEmpty <;>
                simpa [processChunksBatch, List.eraseIdx, hv] using this

/-- Witness for C5 at a concrete batch: an exception in position 0 drops only
that chunk. -/
theorem process_batch_witness :
    processChunksBatch [(⟨"t1", "a.ts", 0⟩ : PendingChunk), ⟨"t2", "a.ts", 1⟩]
        [EmbResult.exc "boom", EmbResult.val (some [(7 : Nat)])]
      = processChunksBatch [(⟨"t2", "a.ts", 1⟩ : PendingChunk)]
          [EmbResult.val (some [(7 : Nat)])] :=
  (process_batch_pairing Nat).2
    [⟨"t1", "a.ts", 0⟩, ⟨"t2", "a.ts", 1⟩]
    [EmbResult.exc "boom", EmbResult.val (some [(7 : Nat)])]
    0 (by decide) (by decide)

/-- C8: constructing the query service fails with the descriptive
`ValueError` message when the collection is absent, succeeds when it exists,
and in both cases leaves the set of collections unchanged (it never creates
one); the indexing pipeline's `_setup_clients` creates the collection exactly
when it is absent. -/
theorem collection_handling :
    ∀ (cols : List String),
      ((buscadorInit cols).2 = cols)
      ∧ (COLLECTION_NAME ∉ cols →
          (buscadorInit cols).1 = Except.error "No se pudo encontrar la colección en ChromaDB")
      ∧ (COLLECTION_NAME ∈ cols → (buscadorInit cols).1 = Except.ok ())
      ∧ (∀ name, name ∈ cols → setupClientsCollections name cols = cols)
      ∧ (∀ name, name ∉ cols → setupClientsCollections name cols = cols ++ [name]) := by
  intro cols
  refine ⟨?_, ?_, ?_, ?_, ?_⟩
  · by_cases h : COLLECTION_NAME ∈ cols <;> simp [buscadorInit, h]
  · intro h; simp [buscadorInit, h]
  · intro h; simp [buscadorInit, h]
  · intro name h; simp [setupClientsCollections, h]
  · intro name h; simp [setupClientsCollections, h]

/-- Witness for C8 at a concrete store state: with only the collection
`"otra"` present, query-service construction fails with the descriptive
error. -/
theorem collection_handling_witness :
    (buscadorInit ["otra"]).1 = Except.error "No se pudo encontrar la colección en ChromaDB" :=
  (collection_handling ["otra"]).2.1 (by decide)

/-- C9 (amended): when the repository path does not exist, `main` logs the
fatal error but plainly returns, so the process exits with status 0 — not
with a non-zero status as claimed. -/
theorem main_missing_path_amended :
    ∀ (repo_path : String) (run : Except String Unit),
      (vectorizeMain false repo_path run).logs = ["El directorio " ++ repo_path ++ " no existe"]
      ∧ (vectorizeMain false repo_path run).exitCode = 0 := by
  intro repo_path run
  exact ⟨rfl, rfl⟩

/-- Counterexample for C9 as stated: for the concrete missing path
`"./repo"`, the error is logged but the exit status is 0, not non-zero. -/
theorem main_missing_path_counterexample :
    (vectorizeMain false "./repo" (Except.ok ())).logs = ["El directorio ./repo no existe"]
    ∧ (vectorizeMain false "./repo" (Except.ok ())).exitCode = 0
    ∧ ¬(vectorizeMain false "./repo" (Except.ok ())).exitCode ≠ 0 := by
  refine ⟨rfl, rfl, by simp [vectorizeMain]⟩

/-- C10: `_get_embedding` is total — every input yields either `None`
(invalid input, transport error, JSON decode error, validation error) or a
validated non-empty, fully numeric embedding; consequently the gathered
results fed to `_process_chunks_batch` are never exceptions, so its
`isinstance(embedding, Exception)` branch is unreachable. -/
theorem get_embedding_total :
    (∀ (text : String) (outcome : ProviderOutcome),
        getEmbedding text outcome = none
        ∨ ∃ e, getEmbedding text outcome = some e ∧ e ≠ [] ∧ e.all isPyNumber = true)
    ∧ (∀ (inputs : List (String × ProviderOutcome)) (r : EmbResult PyVal),
        r ∈ inputs.map (fun p => EmbResult.val (getEmbedding p.1 p.2)) →
        ∀ msg, r ≠ EmbResult.exc msg) := by
  constructor
  · intro text outcome
    by_cases ht : text.isEmpty
    · left; simp [getEmbedding, ht]
    · cases outcome with
      | transport m => left; simp [getEmbedding, ht]
      | badJson m => left; simp [getEmbedding, ht]
      | responseBody v =>
        cases hv : validarRespuestaEmbedding v with
        | error m => left; simp [getEmbedding, ht, hv]
        | ok e =>
          right
          obtain ⟨hne, hnum⟩ := validarRespuestaEmbedding_ok v e hv
          exact ⟨e, by simp [getEmbedding, ht, hv], hne, hnum⟩
  · intro inputs r hr msg
    rw [List.mem_map] at hr
    obtain ⟨p, _, rfl⟩ := hr
    intro hcontra
    exact EmbResult.noConfusion hcontra

/-- Witness for C10 at a concrete input: the gathered result for a transport
failure is a value (here `None`), never an exception. -/
theorem get_embedding_total_witness :
    EmbResult.val (getEmbedding "q" (ProviderOutcome.transport "t")) ≠ EmbResult.exc "m" :=
  (get_embedding_total).2 [("q", ProviderOutcome.transport "t")]
    (EmbResult.val (getEmbedding "q" (ProviderOutcome.transport "t")))
    (List.Mem.head _) "m"

end Docubot
